import Mathlib

/-!
Verification of the normalization-and-deduplication pipeline of the
f_cross_social_media ingestion scripts.

The definitions below are shallow embeddings of the Python sources:
  * `src/scripts/pull_zenquotes.py`    (normalize_text, make_hash, light_filter, main)
  * `src/scripts/goodreads_scraper.py` (parse_quotes cleanup, compute_key, dedupe, main)
  * `src/scripts/tiny_buddha_scraper.py` (extract_first_strong, entry loop)
  * `src/scripts/pinterest_scraper.py` (fetch_pinterest_boards)

Strings are modelled as `List Char` wrapped in `String`; Python byte strings
as `List Nat` (each < 256).  Case mapping (`str.lower`) is modelled on the
ASCII range, where it agrees with Python.
-/

/-- Whitespace as matched by Python's `\s` regex class and `str.strip()` /
`str.split()`: ASCII whitespace plus the common Unicode space characters. -/
def isSpace (c : Char) : Bool :=
  c = ' ' || c = '\t' || c = '\n' || c = '\r' || c = '\x0b' || c = '\x0c' ||
  c = '\x1c' || c = '\x1d' || c = '\x1e' || c = '\x1f' || c = '\u0085' ||
  c = '\u00A0' || c = '\u1680' || ('\u2000' ≤ c && c ≤ '\u200A') ||
  c = '\u2028' || c = '\u2029' || c = '\u202F' || c = '\u205F' || c = '\u3000'

/-- The quotation glyphs (straight and curly, double and single) and the
dash family (hyphen, en dash, em dash) appearing in the character class of
`normalize_text`'s regexes: `["“”'‘’\-–—]` without the whitespace part. -/
def isGlyph (c : Char) : Bool :=
  c = Char.ofNat 34 || c = '“' || c = '”' || c = Char.ofNat 39 ||
  c = '‘' || c = '’' || c = '-' || c = '–' || c = '—'

/-- The full character class `[\s"“”'‘’\-–—]` of the leading/trailing
stripping regexes in `normalize_text`. -/
def isClass (c : Char) : Bool := isSpace c || isGlyph c

/-- Remove the longest suffix of characters satisfying `p`
(mirror image of `List.dropWhile`). -/
def dropTrailingWhile (p : Char → Bool) (l : List Char) : List Char :=
  (l.reverse.dropWhile p).reverse

/-- Python `str.strip()` on a character list: drop whitespace at both ends. -/
def pyStripList (l : List Char) : List Char :=
  dropTrailingWhile isSpace (l.dropWhile isSpace)

/-- Python `str.strip()`. -/
def pyStrip (s : String) : String := ⟨pyStripList s.data⟩

/-- One left-to-right pass of `re.sub(r'\s+', ' ', ·)`: each maximal run of
whitespace becomes a single `' '`.  The flag records whether the previous
character belonged to a whitespace run already replaced. -/
def collapseAux : Bool → List Char → List Char
  | _, [] => []
  | prevSpace, c :: cs =>
    if isSpace c then
      if prevSpace then collapseAux true cs else ' ' :: collapseAux true cs
    else
      c :: collapseAux false cs

/-- `re.sub(r'\s+', ' ', ·)`. -/
def collapseWS (l : List Char) : List Char := collapseAux false l

/-- The intermediate value of `normalize_text` after `q.strip()` and the two
edge-stripping substitutions `re.sub(r'^[\s"“”'‘’\-–—]+', '', ·)` and
`re.sub(r'[\s"“”'‘’\-–—]+$', '', ·)` (the class written here with the two
straight quotes spelled out). -/
def normStripped (l : List Char) : List Char :=
  dropTrailingWhile isClass ((pyStripList l).dropWhile isClass)

/-- `normalize_text` of `pull_zenquotes.py` (lines 22-28): strip, strip the
leading and trailing quote/dash class, collapse whitespace runs, strip. -/
def normList (l : List Char) : List Char :=
  pyStripList (collapseWS (normStripped l))

/-- `normalize_text(q)` from `pull_zenquotes.py`. -/
def normalize_text (s : String) : String := ⟨normList s.data⟩

/-- ASCII lower-casing of one character (Python `str.lower` restricted to
the ASCII range, where the two agree). -/
def lowerChar (c : Char) : Char :=
  if 'A' ≤ c && c ≤ 'Z' then Char.ofNat (c.toNat + 32) else c

/-- Python `str.lower()` (ASCII model). -/
def pyLower (s : String) : String := ⟨s.data.map lowerChar⟩

/-! ### Byte strings and hashing (`hashlib.sha256` / `hashlib.sha1`) -/

/-- UTF-8 encoding of one Unicode scalar value, as a list of byte values
(Python `str.encode("utf-8")` acts per code point in exactly this way). -/
def utf8Char (c : Char) : List Nat :=
  let n := c.toNat
  if n < 0x80 then [n]
  else if n < 0x800 then [0xC0 + n / 64, 0x80 + n % 64]
  else if n < 0x10000 then [0xE0 + n / 4096, 0x80 + n / 64 % 64, 0x80 + n % 64]
  else [0xF0 + n / 262144, 0x80 + n / 4096 % 64, 0x80 + n / 64 % 64, 0x80 + n % 64]

/-- `s.encode("utf-8")` as a list of byte values. -/
def utf8Bytes (s : String) : List Nat := (s.data.map utf8Char).flatten

/-- Modulus for 32-bit words. -/
def M32 : Nat := 4294967296

/-- 32-bit modular addition. -/
def add32 (a b : Nat) : Nat := (a + b) % M32

/-- 32-bit right rotation. -/
def rotr (n x : Nat) : Nat := ((x >>> n) ||| (x <<< (32 - n))) % M32

/-- 32-bit left rotation. -/
def rotl (n x : Nat) : Nat := ((x <<< n) ||| (x >>> (32 - n))) % M32

/-- 32-bit bitwise complement. -/
def not32 (x : Nat) : Nat := x ^^^ 4294967295

/-- Big-endian byte rendering of `n` on `count` bytes. -/
def beBytes (count n : Nat) : List Nat :=
  (List.range count).map (fun i => n / 2 ^ (8 * (count - 1 - i)) % 256)

/-- Merkle-Damgard padding shared by SHA-1 and SHA-256 (FIPS 180-4):
append `0x80`, zero bytes up to 56 mod 64, then the bit length on 8 bytes. -/
def padBytes (msg : List Nat) : List Nat :=
  let len := msg.length
  let k := (64 + 56 - (len + 1) % 64) % 64
  msg ++ [0x80] ++ List.replicate k 0 ++ beBytes 8 (8 * len)

/-- Split a padded message into its 64-byte blocks. -/
def chunks64 (l : List Nat) : List (List Nat) :=
  (List.range ((l.length + 63) / 64)).map (fun i => (l.drop (64 * i)).take 64)

/-- The sixteen 32-bit big-endian words of one 64-byte block. -/
def wordsOfBlock (b : List Nat) : List Nat :=
  (List.range 16).map (fun i =>
    b.getD (4 * i) 0 * 0x1000000 + b.getD (4 * i + 1) 0 * 0x10000 +
    b.getD (4 * i + 2) 0 * 0x100 + b.getD (4 * i + 3) 0)

/-- Working state of SHA-256: eight 32-bit words. -/
structure Sha256State where
  a : Nat
  b : Nat
  c : Nat
  d : Nat
  e : Nat
  f : Nat
  g : Nat
  h : Nat

/-- SHA-256 round constants. -/
def K256 : List Nat :=
  [1116352408, 1899447441, 3049323471, 3921009573, 961987163, 1508970993,
   2453635748, 2870763221, 3624381080, 310598401, 607225278, 1426881987,
   1925078388, 2162078206, 2614888103, 3248222580, 3835390401, 4022224774,
   264347078, 604807628, 770255983, 1249150122, 1555081692, 1996064986,
   2554220882, 2821834349, 2952996808, 3210313671, 3336571891, 3584528711,
   113926993, 338241895, 666307205, 773529912, 1294757372, 1396182291,
   1695183700, 1986661051, 2177026350, 2456956037, 2730485921, 2820302411,
   3259730800, 3345764771, 3516065817, 3600352804, 4094571909, 275423344,
   430227734, 506948616, 659060556, 883997877, 958139571, 1322822218,
   1537002063, 1747873779, 1955562222, 2024104815, 2227730452, 2361852424,
   2428436474, 2756734187, 3204031479, 3329325298]

/-- SHA-256 initial hash value. -/
def H256 : Sha256State :=
  ⟨1779033703, 3144134277, 1013904242, 2773480762,
   1359893119, 2600822924, 528734635, 1541459225⟩

/-- SHA-256 message-schedule extension of the sixteen block words to 64. -/
def schedule256 (w16 : List Nat) : List Nat :=
  (List.range 48).foldl
    (fun w _ =>
      let n := w.length
      let s0 := rotr 7 (w.getD (n - 15) 0) ^^^ rotr 18 (w.getD (n - 15) 0) ^^^ (w.getD (n - 15) 0) >>> 3
      let s1 := rotr 17 (w.getD (n - 2) 0) ^^^ rotr 19 (w.getD (n - 2) 0) ^^^ (w.getD (n - 2) 0) >>> 10
      w ++ [add32 (add32 (w.getD (n - 16) 0) s0) (add32 (w.getD (n - 7) 0) s1)])
    w16

/-- One SHA-256 compression round. -/
def round256 (st : Sha256State) (kw : Nat × Nat) : Sha256State :=
  let S1 := rotr 6 st.e ^^^ rotr 11 st.e ^^^ rotr 25 st.e
  let ch := (st.e &&& st.f) ^^^ (not32 st.e &&& st.g)
  let t1 := add32 st.h (add32 S1 (add32 ch (add32 kw.1 kw.2)))
  let S0 := rotr 2 st.a ^^^ rotr 13 st.a ^^^ rotr 22 st.a
  let mj := (st.a &&& st.b) ^^^ (st.a &&& st.c) ^^^ (st.b &&& st.c)
  let t2 := add32 S0 mj
  ⟨add32 t1 t2, st.a, st.b, st.c, add32 st.d t1, st.e, st.f, st.g⟩

/-- SHA-256 compression of one 64-byte block. -/
def compress256 (st : Sha256State) (block : List Nat) : Sha256State :=
  let w := schedule256 (wordsOfBlock block)
  let r := (K256.zip w).foldl round256 st
  ⟨add32 st.a r.a, add32 st.b r.b, add32 st.c r.c, add32 st.d r.d,
   add32 st.e r.e, add32 st.f r.f, add32 st.g r.g, add32 st.h r.h⟩

/-- SHA-256 of a byte string, as the final state. -/
def sha256State (msg : List Nat) : Sha256State :=
  (chunks64 (padBytes msg)).foldl compress256 H256

/-- Lower-case hex digit for a value in `0..15`. -/
def hexDigit (n : Nat) : Char :=
  if n < 10 then Char.ofNat (48 + n) else Char.ofNat (87 + n)

/-- Eight-character lower-case hex rendering of a 32-bit word. -/
def wHex (n : Nat) : List Char :=
  (List.range 8).map (fun i => hexDigit (n / 16 ^ (7 - i) % 16))

/-- `hashlib.sha256(msg).hexdigest()`. -/
def sha256hex (msg : List Nat) : String :=
  let st := sha256State msg
  ⟨wHex st.a ++ wHex st.b ++ wHex st.c ++ wHex st.d ++
   wHex st.e ++ wHex st.f ++ wHex st.g ++ wHex st.h⟩

/-- Working state of SHA-1: five 32-bit words. -/
structure Sha1State where
  a : Nat
  b : Nat
  c : Nat
  d : Nat
  e : Nat

/-- SHA-1 initial hash value. -/
def H1 : Sha1State := ⟨1732584193, 4023233417, 2562383102, 271733878, 3285377520⟩

/-- SHA-1 message-schedule extension of the sixteen block words to 80. -/
def schedule1 (w16 : List Nat) : List Nat :=
  (List.range 64).foldl
    (fun w _ =>
      let n := w.length
      w ++ [rotl 1 (w.getD (n - 3) 0 ^^^ w.getD (n - 8) 0 ^^^ w.getD (n - 14) 0 ^^^ w.getD (n - 16) 0)])
    w16

/-- SHA-1 round function, depending on the round index. -/
def f1 (i b c d : Nat) : Nat :=
  if i < 20 then (b &&& c) ||| (not32 b &&& d)
  else if i < 40 then b ^^^ c ^^^ d
  else if i < 60 then (b &&& c) ||| (b &&& d) ||| (c &&& d)
  else b ^^^ c ^^^ d

/-- SHA-1 round constant, depending on the round index. -/
def k1 (i : Nat) : Nat :=
  if i < 20 then 1518500249
  else if i < 40 then 1859775393
  else if i < 60 then 2400959708
  else 3395469782

/-- One SHA-1 compression round. -/
def round1 (st : Sha1State) (iw : Nat × Nat) : Sha1State :=
  let t := add32 (rotl 5 st.a) (add32 (f1 iw.1 st.b st.c st.d) (add32 st.e (add32 (k1 iw.1) iw.2)))
  ⟨t, st.a, rotl 30 st.b, st.c, st.d⟩

/-- SHA-1 compression of one 64-byte block. -/
def compress1 (st : Sha1State) (block : List Nat) : Sha1State :=
  let w := schedule1 (wordsOfBlock block)
  let r := (w.enum.map (fun p => (p.1, p.2))).foldl round1 st
  ⟨add32 st.a r.a, add32 st.b r.b, add32 st.c r.c, add32 st.d r.d, add32 st.e r.e⟩

/-- SHA-1 of a byte string, as the final state. -/
def sha1State (msg : List Nat) : Sha1State :=
  (chunks64 (padBytes msg)).foldl compress1 H1

/-- `hashlib.sha1(msg).hexdigest()`. -/
def sha1hex (msg : List Nat) : String :=
  let st := sha1State msg
  ⟨wHex st.a ++ wHex st.b ++ wHex st.c ++ wHex st.d ++ wHex st.e⟩

/-- Key material hashed by `make_hash` in `pull_zenquotes.py` (line 31):
`normalize_text(quote).lower() + "||" + (author or "").lower()`. -/
def zenKeyString (quote author : String) : String :=
  pyLower (normalize_text quote) ++ "||" ++ pyLower author

/-- `make_hash(quote, author)` from `pull_zenquotes.py` (lines 30-32). -/
def make_hash (quote author : String) : String :=
  sha256hex (utf8Bytes (zenKeyString quote author))

/-- Key material hashed by `compute_key` in `goodreads_scraper.py` (line 95):
`f"{quote.strip().lower()}|{author.strip().lower()}"`. -/
def grKeyString (quote author : String) : String :=
  pyLower (pyStrip quote) ++ "|" ++ pyLower (pyStrip author)

/-- `compute_key(quote, author)` from `goodreads_scraper.py` (lines 93-96). -/
def compute_key (quote author : String) : String :=
  sha1hex (utf8Bytes (grKeyString quote author))

/-! ### ZenQuotes items and pipeline (`pull_zenquotes.py`) -/

/-- A decimal digit. -/
def isDigitCh (c : Char) : Bool := '0' ≤ c && c ≤ '9'

/-- Grammar of the characters after the leading digit accepted by Python
`int()`: further digits, with single underscores allowed between digits. -/
def digitsOk : List Char → Bool
  | [] => true
  | c :: cs =>
    if c = '_' then
      match cs with
      | d :: ds => isDigitCh d && digitsOk ds
      | [] => false
    else isDigitCh c && digitsOk cs

/-- Numeric value of a digit list. -/
def digitsToNat (l : List Char) : Nat :=
  l.foldl (fun a c => a * 10 + (c.toNat - 48)) 0

/-- Parse an unsigned decimal numeral as Python `int()` does. -/
def pyIntDigits (l : List Char) : Option Nat :=
  match l with
  | c :: cs =>
    if isDigitCh c && digitsOk cs then
      some (digitsToNat (l.filter (fun d => d ≠ '_')))
    else none
  | [] => none

/-- Python `int(s)` on a string (ASCII digits): strip whitespace, optional
sign, decimal digits; `none` models the `ValueError` branch. -/
def pyInt (s : String) : Option Int :=
  match pyStripList s.data with
  | '+' :: rest => (pyIntDigits rest).map (fun n => (n : Int))
  | '-' :: rest => (pyIntDigits rest).map (fun n => -(n : Int))
  | rest => (pyIntDigits rest).map (fun n => (n : Int))

/-- One item of the ZenQuotes API response: quote, author, source-supplied
character count, html variant (all strings, absent fields defaulted to ""). -/
structure ZItem where
  q : String
  a : String
  c : String
  h : String
deriving DecidableEq

/-- `light_filter(item)` from `pull_zenquotes.py` (lines 42-50): try
`int(item["c"])`; on failure fall back to `len(item["q"])`; keep iff the
resulting count lies in `60..220`. -/
def light_filter (it : ZItem) : Bool :=
  let c : Int := match pyInt it.c with
    | some n => n
    | none => (it.q.length : Int)
  decide (60 ≤ c) && decide (c ≤ 220)

/-- The per-item normalization step of `main` (lines 113-115): normalize the
quote text, strip the author. -/
def zenNormItem (it : ZItem) : ZItem :=
  { it with q := normalize_text it.q, a := pyStrip it.a }

/-- The keep decision of `main` (line 116): nonempty normalized quote and
`light_filter`. -/
def zenKeep (raw : ZItem) : Bool :=
  let it := zenNormItem raw
  !(it.q == "") && light_filter it

/-- The `filtered` list of `main` (lines 111-117). -/
def zenFiltered (batch : List ZItem) : List ZItem :=
  (batch.map zenNormItem).filter (fun it => !(it.q == "") && light_filter it)

/-- The dedup loop of `main` (lines 120-126): the `seen` set is threaded
through; an admitted item's hash is inserted before the rest is processed. -/
def zenDedupAux : List ZItem → List String → List ZItem × List String
  | [], seen => ([], seen)
  | it :: rest, seen =>
    let h := make_hash it.q it.a
    if seen.contains h then zenDedupAux rest seen
    else
      let r := zenDedupAux rest (h :: seen)
      (it :: r.1, r.2)

/-- The `deduped` list of `main`: the dedup loop started from an empty
`seen` set (no persisted identities are loaded). -/
def zenDeduped (batch : List ZItem) : List ZItem :=
  (zenDedupAux (zenFiltered batch) []).1

/-- `to_sheet_row(item)` (lines 52-67), with the wall-clock timestamp passed
in explicitly. -/
def to_sheet_row (now : String) (it : ZItem) : List String :=
  [now, "ZenQuotes API", normalize_text it.q, pyStrip it.a,
   "https://zenquotes.io/", "Needs Review", "", it.h,
   "Inspirational quotes provided by ZenQuotes API"]

/-- The rows `main` produces for one run over `batch`. -/
def zenRows (now : String) (batch : List ZItem) : List (List String) :=
  (zenDeduped batch).map (to_sheet_row now)

/-- One run of the ZenQuotes job against a store: the produced rows are
appended (`write_csv_rows` / `append_to_sheet`); nothing of the store is
read back into the run. -/
def zenJob (now : String) (store : List (List String)) (batch : List ZItem) :
    List (List String) :=
  store ++ zenRows now batch

/-! ### Goodreads quotes (`goodreads_scraper.py`) -/

/-- `MIN_LEN` of `goodreads_scraper.py` (line 26). -/
def MIN_LEN : Nat := 60

/-- `MAX_LEN` of `goodreads_scraper.py` (line 26). -/
def MAX_LEN : Nat := 250

/-- One parsed Goodreads quote dict. -/
structure GQuote where
  tag : String
  quote : String
  author : String
  url : String
  char_count : Nat
  dedupe_key : String
deriving DecidableEq

/-- The loop of `dedupe(new_quotes, existing_keys)` (lines 99-107) with the
`existing_keys` set threaded through explicitly, so that the embedding
records what the loop does to it (namely: nothing — it only reads it). -/
def dedupeS : List GQuote → List String → List GQuote × List String
  | [], ks => ([], ks)
  | q :: rest, ks =>
    let key := compute_key q.quote q.author
    if ks.contains key then dedupeS rest ks
    else
      let r := dedupeS rest ks
      ({ q with dedupe_key := key } :: r.1, r.2)

/-- `dedupe(new_quotes, existing_keys)`: the returned `unique` list. -/
def dedupe (qs : List GQuote) (ks : List String) : List GQuote :=
  (dedupeS qs ks).1

/-- Python `str.split(sep)` accumulator (keeps empty segments). -/
def splitOnCharAux (sep : Char) (cur : List Char) : List Char → List (List Char)
  | [] => [cur.reverse]
  | c :: cs =>
    if c = sep then cur.reverse :: splitOnCharAux sep [] cs
    else splitOnCharAux sep (c :: cur) cs

/-- Python `str.split(sep)` for a one-character separator. -/
def splitOnChar (sep : Char) (l : List Char) : List (List Char) :=
  splitOnCharAux sep [] l

/-- The character set of `parts[0].strip("“”\"' ")` in `parse_quotes`
(line 71): curly double quotes, straight double quote, straight single
quote, space.  Note: curly single quotes and dashes are not in this set. -/
def isGrStripChar (c : Char) : Bool :=
  c = '“' || c = '”' || c = Char.ofNat 34 || c = Char.ofNat 39 || c = ' '

/-- `parts[0].strip("“”\"' ").replace("\n", " ")` (line 71). -/
def grQuote0 (part0 : List Char) : List Char :=
  (dropTrailingWhile isGrStripChar (part0.dropWhile isGrStripChar)).map
    (fun c => if c = '\n' then ' ' else c)

/-- Python `quote.endswith("...")`. -/
def endsDots (l : List Char) : Bool := l.reverse.take 3 == ['.', '.', '.']

/-- Python `quote[:-3]`. -/
def pyDropRight3 (l : List Char) : List Char := l.take (l.length - 3)

/-- The truncation-marker cleanup of `parse_quotes` (lines 75-76):
`if quote.endswith("..."): quote = quote[:-3].strip()`. -/
def grQuote1 (q : List Char) : List Char :=
  if endsDots q then pyStripList (pyDropRight3 q) else q

/-- Python `str.split()` (split on whitespace runs, dropping empties):
accumulator holds the current word reversed. -/
def splitWsAux (cur : List Char) : List Char → List (List Char)
  | [] => if cur.isEmpty then [] else [cur.reverse]
  | c :: cs =>
    if isSpace c then
      if cur.isEmpty then splitWsAux [] cs
      else cur.reverse :: splitWsAux [] cs
    else splitWsAux (c :: cur) cs

/-- Python `str.split()`. -/
def pySplitWs (l : List Char) : List (List Char) := splitWsAux [] l

/-- Python `" ".join(words)`. -/
def joinSp : List (List Char) → List Char
  | [] => []
  | [w] => w
  | w :: ws => w ++ ' ' :: joinSp ws

/-- The fully cleaned quote text of one Goodreads quote block
(lines 71-78): strip quote glyphs, replace newlines, drop one trailing
`"..."`, collapse whitespace via `" ".join(quote.split())`. -/
def grCleanList (part0 : List Char) : List Char :=
  joinSp (pySplitWs (grQuote1 (grQuote0 part0)))

/-- `parts[1].split(",")[0].strip() if len(parts) > 1 else "Unknown"`. -/
def grAuthorOf (parts : List (List Char)) : String :=
  match parts with
  | _ :: p1 :: _ => ⟨pyStripList ((splitOnChar ',' p1).headD [])⟩
  | _ => "Unknown"

/-- `BASE_URL` of the Goodreads scraper. -/
def grBaseUrl : String := "https://www.goodreads.com/quotes/tag/"

/-- The body of the `parse_quotes` loop for one quote block (lines 67-88),
operating on the flattened text of the `div.quoteText` element (the
BeautifulSoup flattening itself is the external HTML collaborator): split
on the attribution bar, clean the quote, keep iff
`MIN_LEN <= len(quote) <= MAX_LEN`. -/
def parse_quote_div (fullText : String) (tag : String) : Option GQuote :=
  let parts := splitOnChar '―' fullText.data
  let quote := grCleanList (parts.headD [])
  let author := grAuthorOf parts
  if MIN_LEN ≤ quote.length && quote.length ≤ MAX_LEN then
    some ⟨tag, ⟨quote⟩, author, grBaseUrl ++ tag, quote.length, ""⟩
  else none

/-- One output row of `write_to_sheets` (lines 119-135). -/
def grRow (timestamp : String) (q : GQuote) : List String :=
  [timestamp, "Goodreads", q.tag, q.quote, q.author, q.url,
   toString q.char_count, q.dedupe_key]

/-- One page iteration of the Goodreads `main` loop (lines 150-163) as a
transition on the run's `existing_keys` set: dedupe against the current
set, append rows, and only after a successful write merge the new keys
(`existing_keys.update(...)` is skipped when `write_to_sheets` raises). -/
def processPage (ks : List String) (qs : List GQuote) (writeOk : Bool)
    (timestamp : String) : List String × List (List String) :=
  let new := dedupe qs ks
  if new.isEmpty then (ks, [])
  else if writeOk then
    (ks ++ new.map (fun q => q.dedupe_key), new.map (grRow timestamp))
  else (ks, [])

/-! ### Pinterest boards (`pinterest_scraper.py`) -/

/-- One parsed feed entry of a Pinterest board RSS feed. -/
structure PEntry where
  title : String
  link : String
  published : Option String
  enclosures : List String
  media_content : Option (List String)
deriving DecidableEq

/-- The image-URL selection of `fetch_pinterest_boards` (lines 58-62).
(`media_content` present but empty would raise an `IndexError` in the
source; the embedding yields `""` on that input.) -/
def pinterestImg (e : PEntry) : String :=
  if !e.enclosures.isEmpty then e.enclosures.headD ""
  else
    match e.media_content with
    | some l => l.headD ""
    | none => ""

/-- One appended Pinterest row (line 63). -/
def pinterestRow (today : String) (board : String) (e : PEntry) : List String :=
  ["Pinterest", board, pyStrip e.title, pinterestImg e, e.link,
   e.published.getD today, ""]

/-- The `new_rows` accumulated over all boards by `fetch_pinterest_boards`
(lines 42-64): every feed entry is projected to a row unconditionally; no
known-identity set is consulted. -/
def fetch_pinterest_rows (today : String)
    (boards : List (String × List PEntry)) : List (List String) :=
  boards.foldl (fun acc b => acc ++ b.2.map (pinterestRow today b.1)) []

/-- One run of the Pinterest job against a store (lines 66-68):
append all collected rows. -/
def pinterestJob (today : String) (store : List (List String))
    (boards : List (String × List PEntry)) : List (List String) :=
  let rows := fetch_pinterest_rows today boards
  if rows.isEmpty then store else store ++ rows

/-! ### Tiny Buddha feed entries (`tiny_buddha_scraper.py`) -/

/-- One parsed feed entry (fields already defaulted as by `entry.get`). -/
structure TEntry where
  description : String
  contentValue : String
  title : String
  author : String
  published : String
  link : String
deriving DecidableEq

/-- `entry.get("description", "") or entry.get("content", [{}])[0].get("value", "")`
(line 50). -/
def tbRawHtml (e : TEntry) : String :=
  if e.description == "" then e.contentValue else e.description

/-- Case-insensitive prefix test (ASCII case folding, as `re.IGNORECASE`). -/
def startsWithCI : List Char → List Char → Bool
  | [], _ => true
  | _ :: _, [] => false
  | p :: ps, c :: cs => lowerChar p == lowerChar c && startsWithCI ps cs

/-- Scan for the first case-insensitive occurrence of `pat` and return the
remainder after it (the mechanism of `re.search` finding the leftmost
match of a literal pattern). -/
def splitFirstCI (pat : List Char) : List Char → Option (List Char)
  | [] => if startsWithCI pat [] then some [] else none
  | c :: cs =>
    if startsWithCI pat (c :: cs) then some ((c :: cs).drop pat.length)
    else splitFirstCI pat cs

/-- Text before the first case-insensitive occurrence of `pat`; `none` when
`pat` does not occur (the non-greedy group `(.*?)` up to the closing tag). -/
def takeUntilCI (pat : List Char) : List Char → Option (List Char)
  | [] => if startsWithCI pat [] then some [] else none
  | c :: cs =>
    if startsWithCI pat (c :: cs) then some []
    else (takeUntilCI pat cs).map (fun t => c :: t)

/-- Remainder after the first `'>'`, failing at a newline (`.` in the
non-DOTALL pattern `<.*?>` does not match `'\n'`). -/
def gtSplit : List Char → Option (List Char)
  | [] => none
  | c :: cs =>
    if c = '>' then some cs
    else if c = '\n' then none
    else gtSplit cs

/-- `re.sub("<.*?>", "", ·)` by a fuelled left-to-right scan (each step
consumes at least one character, so fuel = length always suffices). -/
def stripTagsGo : Nat → List Char → List Char
  | 0, l => l
  | _ + 1, [] => []
  | fuel + 1, c :: cs =>
    if c = '<' then
      match gtSplit cs with
      | some rest => stripTagsGo fuel rest
      | none => c :: stripTagsGo fuel cs
    else c :: stripTagsGo fuel cs

/-- `re.sub("<.*?>", "", ·)`. -/
def stripTags (l : List Char) : List Char := stripTagsGo l.length l

/-- Hexadecimal digit value. -/
def hexVal (c : Char) : Option Nat :=
  if '0' ≤ c && c ≤ '9' then some (c.toNat - 48)
  else if 'a' ≤ c && c ≤ 'f' then some (c.toNat - 87)
  else if 'A' ≤ c && c ≤ 'F' then some (c.toNat - 55)
  else none

/-- Case-sensitive prefix test. -/
def matchPrefixCh : List Char → List Char → Bool
  | [], _ => true
  | _ :: _, [] => false
  | p :: ps, c :: cs => p == c && matchPrefixCh ps cs

/-- The named HTML entities modelled for `html.unescape` (the common subset
of the full HTML5 table). -/
def entityTable : List (List Char × Char) :=
  [("amp;".data, '&'), ("lt;".data, '<'), ("gt;".data, '>'),
   ("quot;".data, Char.ofNat 34), ("apos;".data, Char.ofNat 39),
   ("nbsp;".data, '\u00A0'), ("hellip;".data, '…'), ("mdash;".data, '—'),
   ("ndash;".data, '–'), ("ldquo;".data, '“'), ("rdquo;".data, '”'),
   ("lsquo;".data, '‘'), ("rsquo;".data, '’')]

/-- Look up a named entity as a prefix of `l`. -/
def findEntity : List (List Char × Char) → List Char → Option (Char × Nat)
  | [], _ => none
  | (pat, ch) :: rest, l =>
    if matchPrefixCh pat l then some (ch, pat.length) else findEntity rest l

/-- Match one entity body right after a `'&'`: numeric (`#10;`, `#x1F;`,
semicolon optional) or a named entity from the table.  Returns the
replacement character and the number of characters consumed. -/
def entityMatch (l : List Char) : Option (Char × Nat) :=
  match l with
  | '#' :: t =>
    match t with
    | c :: t2 =>
      if c = 'x' || c = 'X' then
        let ds := t2.takeWhile (fun d => (hexVal d).isSome)
        if ds.isEmpty then none
        else
          let n := ds.foldl (fun a d => a * 16 + (hexVal d).getD 0) 0
          let rest := t2.drop ds.length
          some (Char.ofNat n, 2 + ds.length + (if rest.headD ' ' = ';' then 1 else 0))
      else
        let ds := t.takeWhile isDigitCh
        if ds.isEmpty then none
        else
          let n := ds.foldl (fun a d => a * 10 + (d.toNat - 48)) 0
          let rest := t.drop ds.length
          some (Char.ofNat n, 1 + ds.length + (if rest.headD ' ' = ';' then 1 else 0))
    | [] => none
  | _ => findEntity entityTable l

/-- `html.unescape` by a fuelled scan (consumes at least one character per
step). -/
def unescapeGo : Nat → List Char → List Char
  | 0, l => l
  | _ + 1, [] => []
  | fuel + 1, c :: cs =>
    if c = '&' then
      match entityMatch cs with
      | some r => r.1 :: unescapeGo fuel (cs.drop r.2)
      | none => c :: unescapeGo fuel cs
    else c :: unescapeGo fuel cs

/-- `html.unescape`. -/
def unescapeL (l : List Char) : List Char := unescapeGo l.length l

/-- `extract_first_strong(html_block)` (lines 36-42): find the first
`<strong>...(non-greedy)...</strong>` span case-insensitively; on a match,
strip inner tags, trim, and then unescape entities
(`html.unescape(text.strip())`); `None` when no span. -/
def extract_first_strong (block : String) : Option String :=
  match splitFirstCI "<strong>".data block.data with
  | none => none
  | some rest =>
    match takeUntilCI "</strong>".data rest with
    | none => none
    | some content => some ⟨unescapeL (pyStripList (stripTags content))⟩

/-- The candidate text placed in the row by the entry loop (line 57):
`quote or title` where `quote = extract_first_strong(raw_html)` — the
title is used when the extraction returns `None` and also when it returns
the empty (falsy) string. -/
def candidate_text (e : TEntry) : String :=
  match extract_first_strong (tbRawHtml e) with
  | some q => if q == "" then e.title else q
  | none => e.title

/-- The identity of a (already normalized) ZenQuotes item, as computed in
the dedup loop of `main` (line 123). -/
def zenItemKey (it : ZItem) : String := make_hash it.q it.a

/-- Declarative first-occurrence filter: keep an item, drop every later
item with the same key, recurse.  This is the specification the stateful
dedup loop is compared against. -/
def firstOccBy (key : ZItem → String) : List ZItem → List ZItem
  | [] => []
  | it :: rest => it :: firstOccBy key (rest.filter (fun x => key x ≠ key it))
termination_by l => l.length
decreasing_by
  simp only [List.length_cons]
  exact Nat.lt_succ_of_le (List.length_filter_le _ _)

/-! ### Properties of the text normalizer -/

/-- No character satisfying `p` at the head (vacuously true for `[]`). -/
def headNot (p : Char → Bool) (l : List Char) : Bool :=
  match l with
  | [] => true
  | c :: _ => !p c

/-- No character satisfying `p` at the end (vacuously true for `[]`). -/
def lastNot (p : Char → Bool) (l : List Char) : Bool :=
  match l.getLast? with
  | none => true
  | some c => !p c

/-- No two adjacent whitespace characters. -/
def noDouble : List Char → Bool
  | [] => true
  | [_] => true
  | a :: b :: t => !(isSpace a && isSpace b) && noDouble (b :: t)

/-- Every whitespace character is the plain blank `' '`. -/
def spacesBlank (l : List Char) : Bool :=
  l.all (fun c => !isSpace c || c == ' ')

theorem isSpace_isClass {c : Char} (h : isSpace c = true) : isClass c = true := by
  simp [isClass, h]

theorem not_isClass_not_isSpace {c : Char} (h : isClass c = false) :
    isSpace c = false := by
  by_cases hs : isSpace c = true
  · rw [isSpace_isClass hs] at h; cases h
  · simpa using hs

theorem not_isClass_not_isGlyph {c : Char} (h : isClass c = false) :
    isGlyph c = false := by
  simp [isClass] at h
  exact h.2

theorem headNot_dropWhile (p : Char → Bool) (l : List Char) :
    headNot p (l.dropWhile p) = true := by
  induction l with
  | nil => rfl
  | cons c cs ih =>
    by_cases h : p c = true
    · simpa [List.dropWhile_cons, h] using ih
    · simp only [Bool.not_eq_true] at h
      simp [List.dropWhile_cons, h, headNot]

theorem dropWhile_of_headNot {p : Char → Bool} {l : List Char}
    (h : headNot p l = true) : l.dropWhile p = l := by
  cases l with
  | nil => rfl
  | cons c cs =>
    simp only [headNot, Bool.not_eq_true'] at h
    simp [List.dropWhile_cons, h]

theorem lastNot_eq_headNot_reverse (p : Char → Bool) (l : List Char) :
    lastNot p l = headNot p l.reverse := by
  cases hrev : l.reverse with
  | nil =>
    have : l = [] := by simpa using congrArg List.reverse hrev
    simp [this, lastNot, headNot]
  | cons c cs =>
    have : l.getLast? = some c := by
      rw [← List.head?_reverse, hrev]; rfl
    simp [lastNot, this, headNot]

theorem lastNot_dropTrailingWhile (p : Char → Bool) (l : List Char) :
    lastNot p (dropTrailingWhile p l) = true := by
  rw [lastNot_eq_headNot_reverse, dropTrailingWhile, List.reverse_reverse]
  exact headNot_dropWhile p l.reverse

theorem dropTrailingWhile_of_lastNot {p : Char → Bool} {l : List Char}
    (h : lastNot p l = true) : dropTrailingWhile p l = l := by
  rw [lastNot_eq_headNot_reverse] at h
  rw [dropTrailingWhile, dropWhile_of_headNot h, List.reverse_reverse]

/-- `dropTrailingWhile` returns a prefix of its argument. -/
theorem dropTrailingWhile_prefix (p : Char → Bool) (l : List Char) :
    ∃ t, l = dropTrailingWhile p l ++ t := by
  refine ⟨(l.reverse.takeWhile p).reverse, ?_⟩
  rw [dropTrailingWhile, ← List.reverse_append, List.takeWhile_append_dropWhile,
    List.reverse_reverse]

theorem headNot_of_prefix {p : Char → Bool} {l l₁ t : List Char}
    (hl : l = l₁ ++ t) (h : headNot p l = true) : headNot p l₁ = true := by
  cases l₁ with
  | nil => rfl
  | cons c cs => subst hl; simpa [headNot] using h

theorem headNot_dropTrailingWhile {p q : Char → Bool} {l : List Char}
    (h : headNot q l = true) : headNot q (dropTrailingWhile p l) = true := by
  obtain ⟨t, ht⟩ := dropTrailingWhile_prefix p l
  exact headNot_of_prefix ht h

theorem collapse_true_headNot : ∀ l, headNot isSpace (collapseAux true l) = true := by
  intro l
  induction l with
  | nil => rfl
  | cons c cs ih =>
    by_cases h : isSpace c = true
    · simpa [collapseAux, h] using ih
    · simp [collapseAux, h, headNot]

theorem noDouble_cons_of {c : Char} {l : List Char}
    (h : isSpace c = false ∨ headNot isSpace l = true) (hl : noDouble l = true) :
    noDouble (c :: l) = true := by
  cases l with
  | nil => rfl
  | cons d t =>
    simp only [noDouble, Bool.and_eq_true, Bool.not_eq_true']
    refine ⟨?_, hl⟩
    rcases h with h | h
    · simp [h]
    · simp only [headNot, Bool.not_eq_true'] at h
      simp [h]

theorem noDouble_collapseAux : ∀ (l : List Char) (b : Bool),
    noDouble (collapseAux b l) = true := by
  intro l
  induction l with
  | nil => intro b; rfl
  | cons c cs ih =>
    intro b
    by_cases h : isSpace c = true
    · cases b with
      | true => simpa [collapseAux, h] using ih true
      | false =>
        simp only [collapseAux, h, if_true]
        exact noDouble_cons_of (Or.inr (collapse_true_headNot cs)) (ih true)
    · simp only [Bool.not_eq_true] at h
      simp only [collapseAux, h, Bool.false_eq_true, if_false]
      exact noDouble_cons_of (Or.inl h) (ih false)

/-- Unfolding equation for `collapseAux` on a cons cell. -/
theorem collapseAux_cons (b : Bool) (c : Char) (cs : List Char) :
    collapseAux b (c :: cs) =
      if isSpace c = true then
        (if b = true then collapseAux true cs else ' ' :: collapseAux true cs)
      else c :: collapseAux false cs := rfl

theorem spacesBlank_collapseAux : ∀ (l : List Char) (b : Bool),
    spacesBlank (collapseAux b l) = true := by
  intro l
  induction l with
  | nil => intro b; rfl
  | cons c cs ih =>
    intro b
    rw [collapseAux_cons]
    by_cases h : isSpace c = true
    · rw [if_pos h]
      cases b with
      | true => rw [if_pos rfl]; exact ih true
      | false =>
        rw [if_neg (by simp)]
        simpa [spacesBlank] using ih true
    · rw [if_neg h]
      have h' : isSpace c = false := by simpa using h
      simpa [spacesBlank, h'] using ih false

theorem getLast?_cons_of_ne_nil {c : Char} {l : List Char} (h : l ≠ []) :
    (c :: l).getLast? = l.getLast? := by
  cases l with
  | nil => exact absurd rfl h
  | cons d t => exact List.getLast?_cons_cons

theorem collapseAux_getLast : ∀ (l : List Char) (b : Bool) (c : Char),
    l.getLast? = some c → isSpace c = false →
    (collapseAux b l).getLast? = some c := by
  intro l
  induction l with
  | nil => intro b c h; cases h
  | cons d cs ih =>
    intro b c hlast hc
    cases cs with
    | nil =>
      simp only [List.getLast?_singleton, Option.some.injEq] at hlast
      subst hlast
      rw [collapseAux_cons, if_neg (by simp [hc])]
      rfl
    | cons e t =>
      have hlast' : (e :: t).getLast? = some c := by
        rwa [List.getLast?_cons_cons] at hlast
      have hne : ∀ b', collapseAux b' (e :: t) ≠ [] := by
        intro b' hcontra
        have := ih b' c hlast' hc
        rw [hcontra] at this
        cases this
      rw [collapseAux_cons]
      by_cases hd : isSpace d = true
      · rw [if_pos hd]
        cases b with
        | true => rw [if_pos rfl]; exact ih true c hlast' hc
        | false =>
          rw [if_neg (by simp), getLast?_cons_of_ne_nil (hne true)]
          exact ih true c hlast' hc
      · rw [if_neg hd, getLast?_cons_of_ne_nil (hne false)]
        exact ih false c hlast' hc

theorem collapseAux_fix : ∀ l : List Char, noDouble l = true → spacesBlank l = true →
    collapseAux false l = l ∧ (headNot isSpace l = true → collapseAux true l = l) := by
  intro l
  induction l with
  | nil => intro _ _; exact ⟨rfl, fun _ => rfl⟩
  | cons c cs ih =>
    intro hnd hsb
    have hndcs : noDouble cs = true := by
      cases cs with
      | nil => rfl
      | cons d t =>
        simp only [noDouble, Bool.and_eq_true] at hnd
        exact hnd.2
    have hsbc : (!isSpace c || c == ' ') = true ∧ spacesBlank cs = true := by
      simpa [spacesBlank] using hsb
    obtain ⟨ihf, iht⟩ := ih hndcs hsbc.2
    by_cases hc : isSpace c = true
    · have hcblank : c = ' ' := by simpa [hc] using hsbc.1
      have hheadcs : headNot isSpace cs = true := by
        cases cs with
        | nil => rfl
        | cons d t =>
          simp only [noDouble, Bool.and_eq_true] at hnd
          have h1 := hnd.1
          rw [hc] at h1
          simp only [Bool.true_and, Bool.not_eq_true'] at h1
          simp [headNot, h1]
      refine ⟨?_, ?_⟩
      · rw [collapseAux_cons, if_pos hc, if_neg (by simp), iht hheadcs, hcblank]
      · intro hhead
        simp [headNot, hc] at hhead
    · refine ⟨?_, fun _ => ?_⟩
      · rw [collapseAux_cons, if_neg hc, ihf]
      · rw [collapseAux_cons, if_neg hc, ihf]

theorem headNot_space_of_class {l : List Char} (h : headNot isClass l = true) :
    headNot isSpace l = true := by
  cases l with
  | nil => rfl
  | cons c cs =>
    have : isClass c = false := by simpa [headNot] using h
    simp [headNot, not_isClass_not_isSpace this]

theorem lastNot_space_of_class {l : List Char} (h : lastNot isClass l = true) :
    lastNot isSpace l = true := by
  cases hg : l.getLast? with
  | none => simp [lastNot, hg]
  | some c =>
    have : isClass c = false := by simpa [lastNot, hg] using h
    simp [lastNot, hg, not_isClass_not_isSpace this]

theorem headNot_glyph_of_class {l : List Char} (h : headNot isClass l = true) :
    headNot isGlyph l = true := by
  cases l with
  | nil => rfl
  | cons c cs =>
    have : isClass c = false := by simpa [headNot] using h
    simp [headNot, not_isClass_not_isGlyph this]

theorem lastNot_glyph_of_class {l : List Char} (h : lastNot isClass l = true) :
    lastNot isGlyph l = true := by
  cases hg : l.getLast? with
  | none => simp [lastNot, hg]
  | some c =>
    have : isClass c = false := by simpa [lastNot, hg] using h
    simp [lastNot, hg, not_isClass_not_isGlyph this]

theorem pyStripList_of_not_space {l : List Char} (h1 : headNot isSpace l = true)
    (h2 : lastNot isSpace l = true) : pyStripList l = l := by
  rw [pyStripList, dropWhile_of_headNot h1, dropTrailingWhile_of_lastNot h2]

theorem normStripped_headNot (l : List Char) :
    headNot isClass (normStripped l) = true :=
  headNot_dropTrailingWhile (headNot_dropWhile isClass _)

theorem normStripped_lastNot (l : List Char) :
    lastNot isClass (normStripped l) = true :=
  lastNot_dropTrailingWhile isClass _

theorem collapse_headNot_isClass {m : List Char} (h : headNot isClass m = true) :
    headNot isClass (collapseAux false m) = true := by
  cases m with
  | nil => rfl
  | cons c cs =>
    have hc : isClass c = false := by simpa [headNot] using h
    rw [collapseAux_cons, if_neg (by simp [not_isClass_not_isSpace hc])]
    simp [headNot, hc]

theorem collapse_lastNot_isClass {m : List Char} (h : lastNot isClass m = true) :
    lastNot isClass (collapseAux false m) = true := by
  cases hg : m.getLast? with
  | none =>
    have : m = [] := by simpa using hg
    subst this
    rfl
  | some c =>
    have hcC : isClass c = false := by simpa [lastNot, hg] using h
    have := collapseAux_getLast m false c hg (not_isClass_not_isSpace hcC)
    simp [lastNot, this, hcC]

/-- The output of `normList` is the whitespace-collapse of the stripped
text, and it carries all four normal-form properties: no class character
at either end, no two adjacent whitespace characters, and every whitespace
character is a plain blank. -/
theorem normList_spec (l : List Char) :
    normList l = collapseAux false (normStripped l) ∧
    headNot isClass (normList l) = true ∧ lastNot isClass (normList l) = true ∧
    noDouble (normList l) = true ∧ spacesBlank (normList l) = true := by
  have h1 : headNot isClass (normStripped l) = true := normStripped_headNot l
  have h2 : lastNot isClass (normStripped l) = true := normStripped_lastNot l
  have hh : headNot isClass (collapseAux false (normStripped l)) = true :=
    collapse_headNot_isClass h1
  have hl : lastNot isClass (collapseAux false (normStripped l)) = true :=
    collapse_lastNot_isClass h2
  have hnd : noDouble (collapseAux false (normStripped l)) = true :=
    noDouble_collapseAux _ false
  have hsb : spacesBlank (collapseAux false (normStripped l)) = true :=
    spacesBlank_collapseAux _ false
  have heq : normList l = collapseAux false (normStripped l) := by
    rw [normList, collapseWS,
      pyStripList_of_not_space (headNot_space_of_class hh) (lastNot_space_of_class hl)]
  refine ⟨heq, ?_, ?_, ?_, ?_⟩ <;> rw [heq] <;> assumption

/-- The normalizer is a projection: applying `normList` to its own output
changes nothing. -/
theorem normList_idem (l : List Char) : normList (normList l) = normList l := by
  obtain ⟨-, hh, hl, hnd, hsb⟩ := normList_spec l
  have hstrip : pyStripList (normList l) = normList l :=
    pyStripList_of_not_space (headNot_space_of_class hh) (lastNot_space_of_class hl)
  have hdropC : (normList l).dropWhile isClass = normList l := dropWhile_of_headNot hh
  have hdropT : dropTrailingWhile isClass (normList l) = normList l :=
    dropTrailingWhile_of_lastNot hl
  have hcol : collapseAux false (normList l) = normList l :=
    (collapseAux_fix (normList l) hnd hsb).1
  show pyStripList (collapseWS (normStripped (normList l))) = normList l
  rw [normStripped, hstrip, hdropC, hdropT, collapseWS, hcol, hstrip]

/-- C7 (amended): for every raw input string, the Text Normalizer
`normalize_text` returns a string with no leading or trailing quotation
glyph (straight or curly, double or single), no leading or trailing
dash-family separator (hyphen, en dash, em dash), and no internal run of
two or more whitespace characters.  The inline Goodreads quote cleanup
does not share this property: its strip set lacks the curly single quotes
and the dash family, so those glyphs survive at the edges (see the
counterexample). -/
theorem C7_normalize_no_edge_glyph_no_double_space (s : String) :
    headNot isGlyph (normalize_text s).data = true ∧
    lastNot isGlyph (normalize_text s).data = true ∧
    noDouble (normalize_text s).data = true := by
  have hdata : (normalize_text s).data = normList s.data := rfl
  obtain ⟨-, hh, hl, hnd, -⟩ := normList_spec s.data
  rw [hdata]
  exact ⟨headNot_glyph_of_class hh, lastNot_glyph_of_class hl, hnd⟩

/-- C8: the text normalizer is idempotent —
`normalize_text (normalize_text x) = normalize_text x` for every string
`x`; it is a total function of strings, so it always returns a (possibly
empty) string and cannot raise. -/
theorem C8_normalize_idempotent (s : String) :
    normalize_text (normalize_text s) = normalize_text s := by
  show String.mk (normList (normalize_text s).data) = String.mk (normList s.data)
  have h : (normalize_text s).data = normList s.data := rfl
  rw [h, normList_idem]

/-! ### Identity generator properties -/

theorem wHex_length (n : Nat) : (wHex n).length = 8 := by
  simp [wHex]

/-- A SHA-256 hex digest always has 64 characters, whatever the input. -/
theorem sha256hex_length (msg : List Nat) : (sha256hex msg).length = 64 := by
  simp [sha256hex, String.length, wHex_length]

/-- A SHA-1 hex digest always has 40 characters, whatever the input. -/
theorem sha1hex_length (msg : List Nat) : (sha1hex msg).length = 40 := by
  simp [sha1hex, String.length, wHex_length]

/-- C3 (amended): each script's identity is deterministic for its own key
material — `make_hash` depends only on `normalize_text quote` and the
lower-cased author, so records agreeing after normalization get the same
identity within the ZenQuotes script and across runs; the digest is a
fixed-width hex string (64 characters for `make_hash`, 40 for
`compute_key`); but the two scripts never produce the identical identity
string for the same pair, because they use different hash functions,
separators and pre-processing. -/
theorem C3_identity_per_script (q q' a a' : String)
    (hq : normalize_text q = normalize_text q')
    (ha : pyLower a = pyLower a') :
    make_hash q a = make_hash q' a' ∧
    (make_hash q a).length = 64 ∧ (compute_key q a).length = 40 ∧
    make_hash q a ≠ compute_key q a := by
  refine ⟨?_, sha256hex_length _, sha1hex_length _, ?_⟩
  · rw [make_hash, make_hash, zenKeyString, zenKeyString, hq, ha]
  · intro h
    have h64 := sha256hex_length (utf8Bytes (zenKeyString q a))
    have h40 := sha1hex_length (utf8Bytes (grKeyString q a))
    rw [make_hash, compute_key] at h
    rw [h, h40] at h64
    omega

/-- Witness for C3 (amended) at concrete inputs: a quoted and an unquoted
spelling of the same text, and two casings of the same author, produce the
same ZenQuotes identity. -/
theorem C3_identity_per_script_witness :
    normalize_text "“Be yourself”" = normalize_text "  Be yourself " ∧
    pyLower "Oscar Wilde" = pyLower "OSCAR WILDE" ∧
    (make_hash "“Be yourself”" "Oscar Wilde" = make_hash "  Be yourself " "OSCAR WILDE" ∧
     (make_hash "“Be yourself”" "Oscar Wilde").length = 64 ∧
     (compute_key "“Be yourself”" "Oscar Wilde").length = 40 ∧
     make_hash "“Be yourself”" "Oscar Wilde" ≠ compute_key "“Be yourself”" "Oscar Wilde") :=
  ⟨by decide, by decide,
   C3_identity_per_script "“Be yourself”" "  Be yourself " "Oscar Wilde" "OSCAR WILDE"
     (by decide) (by decide)⟩

/-- Counterexample to C3 as stated: for the same `(text, author)` pair the
two source scripts do not yield the identical identity string — the
ZenQuotes identity is a 64-character SHA-256 digest while the Goodreads
identity is a 40-character SHA-1 digest (of differently assembled key
material), so the identity is not independent of which script computed it. -/
theorem C3_cross_script_counterexample :
    make_hash "Be yourself; everyone else is already taken." "Oscar Wilde" ≠
    compute_key "Be yourself; everyone else is already taken." "Oscar Wilde" := by
  intro h
  have h64 := sha256hex_length
    (utf8Bytes (zenKeyString "Be yourself; everyone else is already taken." "Oscar Wilde"))
  have h40 := sha1hex_length
    (utf8Bytes (grKeyString "Be yourself; everyone else is already taken." "Oscar Wilde"))
  rw [make_hash, compute_key] at h
  rw [h, h40] at h64
  omega

/-! ### Acceptance filter properties -/

/-- C4 (amended): the ZenQuotes filter decision is based primarily on the
source-supplied `c` field — when `int(item["c"])` parses, the item is kept
iff the parsed value lies in `60..220`, regardless of the measured text
length; only when parsing fails does the filter fall back to the measured
length of the (already normalized) quote text. -/
theorem C4_light_filter_source_count (it : ZItem) (n : Int) :
    (pyInt it.c = some n → (light_filter it = true ↔ 60 ≤ n ∧ n ≤ 220)) ∧
    (pyInt it.c = none →
      (light_filter it = true ↔
        60 ≤ (it.q.length : Int) ∧ (it.q.length : Int) ≤ 220)) := by
  constructor
  · intro h
    simp [light_filter, h]
  · intro h
    simp [light_filter, h]

/-- Witness for C4 (amended): an item whose `c` field parses as 100 is
judged by that value; an item with an unparseable `c` is judged by its
measured length. -/
theorem C4_light_filter_source_count_witness :
    pyInt "100" = some 100 ∧ pyInt "n/a" = none ∧
    (light_filter ⟨"short", "x", "100", ""⟩ = true ↔
      60 ≤ (100 : Int) ∧ (100 : Int) ≤ 220) ∧
    (light_filter ⟨"ab", "x", "n/a", ""⟩ = true ↔
      60 ≤ (("ab" : String).length : Int) ∧ (("ab" : String).length : Int) ≤ 220) :=
  ⟨by decide, by decide,
   (C4_light_filter_source_count ⟨"short", "x", "100", ""⟩ 100).1 (by decide),
   (C4_light_filter_source_count ⟨"ab", "x", "n/a", ""⟩ 0).2 (by decide)⟩

/-- Counterexample to C4 as stated: the item `{q: "short", c: "100"}` is
kept by the ZenQuotes acceptance (its `c` field parses as 100), although
the measured character count of its normalized quote text is 5, far below
60 — so the decision is not based on the measured count with `c` as a mere
fallback. -/
theorem C4_counterexample :
    zenKeep ⟨"short", "x", "100", ""⟩ = true ∧
    light_filter (zenNormItem ⟨"short", "x", "100", ""⟩) = true ∧
    (normalize_text "short").length = 5 := by
  refine ⟨by decide, by decide, by decide⟩

/-- C5 (amended): the Goodreads filter accepts a quote block iff the
cleaned quote text's measured length lies in `MIN_LEN..MAX_LEN` (60..250),
bounds inclusive; the ZenQuotes acceptance uses the measured length of the
normalized text only when the `c` field fails to parse (then: kept iff
nonempty and the length lies in `60..220`), and an empty normalized text
is always rejected whatever the `c` field says. -/
theorem C5_acceptance_bounds :
    (∀ (ft tag : String) (g : GQuote), parse_quote_div ft tag = some g →
      MIN_LEN ≤ g.char_count ∧ g.char_count ≤ MAX_LEN) ∧
    (∀ ft tag : String,
      MIN_LEN ≤ (grCleanList ((splitOnChar '―' ft.data).headD [])).length →
      (grCleanList ((splitOnChar '―' ft.data).headD [])).length ≤ MAX_LEN →
      (parse_quote_div ft tag).isSome = true) ∧
    (∀ it : ZItem, pyInt it.c = none →
      (zenKeep it = true ↔ (normalize_text it.q ≠ "" ∧
        60 ≤ (normalize_text it.q).length ∧ (normalize_text it.q).length ≤ 220))) ∧
    (∀ it : ZItem, normalize_text it.q = "" → zenKeep it = false) := by
  refine ⟨?_, ?_, ?_, ?_⟩
  · intro ft tag g h
    simp only [parse_quote_div] at h
    split at h
    next hcond =>
      cases h
      simpa using hcond
    next => cases h
  · intro ft tag h1 h2
    rw [List.headD_eq_head?] at h1 h2
    simp [parse_quote_div, h1, h2]
  · intro it h
    simp only [zenKeep, zenNormItem, light_filter, h, Bool.and_eq_true,
      Bool.not_eq_true', beq_eq_false_iff_ne, ne_eq, decide_eq_true_eq]
    constructor
    · rintro ⟨h1, h2, h3⟩
      exact ⟨h1, by omega, by omega⟩
    · rintro ⟨h1, h2, h3⟩
      exact ⟨h1, by omega, by omega⟩
  · intro it h
    simp [zenKeep, zenNormItem, h]

/-- Witness for C5 (amended) at concrete inputs: a Goodreads block whose
cleaned quote has 74 characters is accepted with that `char_count`; the
bound check alone also certifies acceptance; a ZenQuotes item with
unparseable `c` and a 69-character normalized quote is judged by the
measured length; an item normalizing to the empty string is rejected. -/
theorem C5_acceptance_bounds_witness :
    (MIN_LEN ≤ (74 : Nat) ∧ (74 : Nat) ≤ MAX_LEN) ∧
    ((parse_quote_div "“Be yourself; everyone else is already taken but you should also stay kind.”   ― Oscar Wilde, Collected Works" "confidence").isSome = true) ∧
    (zenKeep ⟨"Be yourself; everyone else is already taken but you should stay kind.", "Oscar Wilde", "", ""⟩ = true ↔
      (normalize_text "Be yourself; everyone else is already taken but you should stay kind." ≠ "" ∧
        60 ≤ (normalize_text "Be yourself; everyone else is already taken but you should stay kind.").length ∧
        (normalize_text "Be yourself; everyone else is already taken but you should stay kind.").length ≤ 220)) ∧
    zenKeep ⟨"  “”- ", "a", "100", ""⟩ = false :=
  ⟨C5_acceptance_bounds.1 "“Be yourself; everyone else is already taken but you should also stay kind.”   ― Oscar Wilde, Collected Works" "confidence"
      ⟨"confidence", "Be yourself; everyone else is already taken but you should also stay kind.", "Oscar Wilde", "https://www.goodreads.com/quotes/tag/confidence", 74, ""⟩
      (by decide),
   C5_acceptance_bounds.2.1 "“Be yourself; everyone else is already taken but you should also stay kind.”   ― Oscar Wilde, Collected Works" "confidence"
      (by decide) (by decide),
   C5_acceptance_bounds.2.2.1 ⟨"Be yourself; everyone else is already taken but you should stay kind.", "Oscar Wilde", "", ""⟩
      (by decide),
   C5_acceptance_bounds.2.2.2 ⟨"  “”- ", "a", "100", ""⟩ (by decide)⟩

/-- Counterexample to C5 as stated: a ZenQuotes item whose normalized text
measures 59 characters — one below the minimum bound, so the claim demands
rejection — is accepted, because its source-supplied `c` field parses as
100; the acceptance is therefore not "iff the measured normalized length is
within the bounds". -/
theorem C5_counterexample :
    zenKeep ⟨"This sentence right here has exactly fifty-nine characters.", "x", "100", ""⟩ = true ∧
    (normalize_text "This sentence right here has exactly fifty-nine characters.").length = 59 := by
  refine ⟨by decide, by decide⟩

/-! ### Truncation-marker handling -/

theorem count_dropWhile {p : Char → Bool} {c : Char} (hc : p c = false)
    (l : List Char) : (l.dropWhile p).count c = l.count c := by
  induction l with
  | nil => rfl
  | cons d ds ih =>
    by_cases hd : p d = true
    · have hne : (d == c) = false := beq_eq_false_iff_ne.mpr
        (fun hdc => by rw [hdc, hc] at hd; cases hd)
      rw [List.dropWhile_cons, if_pos hd, ih, List.count_cons]
      simp [hne]
    · simp only [Bool.not_eq_true] at hd
      rw [List.dropWhile_cons, if_neg (by simp [hd])]

theorem count_dropTrailingWhile {p : Char → Bool} {c : Char} (hc : p c = false)
    (l : List Char) : (dropTrailingWhile p l).count c = l.count c := by
  rw [dropTrailingWhile, List.count_reverse, count_dropWhile hc, List.count_reverse]

theorem count_pyStripList {c : Char} (hc : isSpace c = false) (l : List Char) :
    (pyStripList l).count c = l.count c := by
  rw [pyStripList, count_dropTrailingWhile hc, count_dropWhile hc]

theorem count_collapseAux {c : Char} (hc : isSpace c = false) :
    ∀ (l : List Char) (b : Bool), (collapseAux b l).count c = l.count c := by
  have hblank : ((' ' : Char) == c) = false := beq_eq_false_iff_ne.mpr
    (fun hbc => by rw [← hbc] at hc; simp [isSpace] at hc)
  intro l
  induction l with
  | nil => intro b; rfl
  | cons d ds ih =>
    intro b
    rw [collapseAux_cons]
    by_cases hd : isSpace d = true
    · have hne : (d == c) = false := beq_eq_false_iff_ne.mpr
        (fun hdc => by rw [hdc, hc] at hd; cases hd)
      rw [if_pos hd]
      cases b with
      | true =>
        rw [if_pos rfl, ih true, List.count_cons]
        simp [hne]
      | false =>
        rw [if_neg (by simp), List.count_cons, ih true, List.count_cons]
        simp [hne, hblank]
    · rw [if_neg hd, List.count_cons, List.count_cons, ih false]

/-- `normalize_text` never changes the number of occurrences of a
character outside the stripped class — in particular it removes no `'.'`. -/
theorem count_normList {c : Char} (hc : isClass c = false) (l : List Char) :
    (normList l).count c = l.count c := by
  have hs : isSpace c = false := not_isClass_not_isSpace hc
  rw [normList, collapseWS, count_pyStripList hs, count_collapseAux hs,
    normStripped, count_dropTrailingWhile hc, count_dropWhile hc,
    count_pyStripList hs]

theorem count_joinSp_cons {c : Char} (hc : isSpace c = false)
    (w : List Char) (ws : List (List Char)) :
    (joinSp (w :: ws)).count c = w.count c + (joinSp ws).count c := by
  have hblank : ((' ' : Char) == c) = false := beq_eq_false_iff_ne.mpr
    (fun hbc => by rw [← hbc] at hc; simp [isSpace] at hc)
  cases ws with
  | nil => simp [joinSp]
  | cons x xs =>
    show ((w ++ ' ' :: joinSp (x :: xs)).count c) = _
    rw [List.count_append, List.count_cons]
    simp [hblank]

theorem count_splitWsAux {c : Char} (hc : isSpace c = false) :
    ∀ (l cur : List Char),
      (joinSp (splitWsAux cur l)).count c = cur.count c + l.count c := by
  intro l
  induction l with
  | nil =>
    intro cur
    cases cur with
    | nil => rfl
    | cons x xs =>
      show (joinSp [(x :: xs).reverse]).count c = _
      rw [show joinSp [(x :: xs).reverse] = (x :: xs).reverse from rfl,
        List.count_reverse]
      simp
  | cons d ds ih =>
    intro cur
    by_cases hd : isSpace d = true
    · have hne : (d == c) = false := beq_eq_false_iff_ne.mpr
        (fun hdc => by rw [hdc, hc] at hd; cases hd)
      cases cur with
      | nil =>
        have hstep : splitWsAux ([] : List Char) (d :: ds) = splitWsAux [] ds := by
          simp [splitWsAux, hd]
        rw [hstep, ih [], List.count_cons]
        simp [hne]
      | cons x xs =>
        have hstep : splitWsAux (x :: xs) (d :: ds) =
            (x :: xs).reverse :: splitWsAux [] ds := by
          simp [splitWsAux, hd]
        rw [hstep, count_joinSp_cons hc, List.count_reverse, ih []]
        simp only [List.count_cons, List.count_nil, hne, Bool.false_eq_true,
          if_false]
        omega
    · have hstep : splitWsAux cur (d :: ds) = splitWsAux (d :: cur) ds := by
        simp [splitWsAux, hd]
      rw [hstep, ih (d :: cur), List.count_cons, List.count_cons]
      omega

/-- `" ".join(l.split())` preserves every non-whitespace character count. -/
theorem count_joinSplit {c : Char} (hc : isSpace c = false) (l : List Char) :
    (joinSp (pySplitWs l)).count c = l.count c := by
  rw [pySplitWs, count_splitWsAux hc]
  simp

/-- A list ending in the `"..."` marker decomposes as its first part plus
exactly the three dots, and `pyDropRight3` recovers the first part. -/
theorem endsDots_decomp {l : List Char} (h : endsDots l = true) :
    ∃ A, l = A ++ ['.', '.', '.'] ∧ pyDropRight3 l = A := by
  have htake : l.reverse.take 3 = ['.', '.', '.'] := by
    simpa [endsDots] using h
  have hA : l = (l.reverse.drop 3).reverse ++ ['.', '.', '.'] := by
    conv_lhs => rw [← l.reverse_reverse, ← List.take_append_drop 3 l.reverse]
    rw [List.reverse_append, htake]
    rfl
  have hlenA : l.length = (l.reverse.drop 3).reverse.length + 3 := by
    conv_lhs => rw [hA]
    simp
  refine ⟨(l.reverse.drop 3).reverse, hA, ?_⟩
  rw [pyDropRight3]
  conv_lhs => rw [hA]
  simp only [List.length_append, List.length_cons, List.length_nil,
    Nat.add_sub_cancel]
  exact List.take_left _ _

/-- C6 (amended): the ZenQuotes normalizer performs no truncation-marker
removal at all — it preserves every `'.'` of its input, so a trailing
`"..."` survives normalization; the Goodreads cleanup, by contrast, removes
exactly one trailing `"..."` (three dots) and re-trims whenever the
glyph-stripped text ends with the marker. -/
theorem C6_truncation_marker :
    (∀ s : String, (normalize_text s).data.count '.' = s.data.count '.') ∧
    (∀ part0 : List Char, endsDots (grQuote0 part0) = true →
      (grCleanList part0).count '.' = (grQuote0 part0).count '.' - 3 ∧
      3 ≤ (grQuote0 part0).count '.') := by
  have h3 : (['.', '.', '.'] : List Char).count '.' = 3 := by decide
  constructor
  · intro s
    have hcl : isClass ('.' : Char) = false := by decide
    exact count_normList hcl s.data
  · intro part0 h
    obtain ⟨A, hA, hdrop⟩ := endsDots_decomp h
    have hdot : isSpace ('.' : Char) = false := by decide
    constructor
    · rw [grCleanList, grQuote1, if_pos h, hdrop, count_joinSplit hdot,
        count_pyStripList hdot]
      conv_rhs => rw [hA]
      rw [List.count_append, h3]
      omega
    · rw [hA, List.count_append, h3]
      omega

/-- Witness for C6 (amended): a Goodreads quote text ending in the marker
loses exactly its three dots during cleanup. -/
theorem C6_truncation_marker_witness :
    endsDots (grQuote0 "A quote that ends...".data) = true ∧
    ((grCleanList "A quote that ends...".data).count '.' =
        (grQuote0 "A quote that ends...".data).count '.' - 3 ∧
      3 ≤ (grQuote0 "A quote that ends...".data).count '.') :=
  ⟨by decide, C6_truncation_marker.2 "A quote that ends...".data (by decide)⟩

/-- Counterexample to C6 as stated: for the input `"abc..."` the text
remaining after the whitespace/quote/dash stripping of `normalize_text`
ends with the truncation marker, yet the normalizer does not remove it —
the normalized output still ends with `"..."`. -/
theorem C6_counterexample :
    endsDots (normStripped "abc...".data) = true ∧
    endsDots ((normalize_text "abc...").data) = true := by
  refine ⟨by decide, by decide⟩

/-! ### Dedup gate properties -/

theorem gr_contains_iff {l : List String} {a : String} :
    l.contains a = true ↔ a ∈ l := by
  simp [List.contains, List.elem_iff]


/-- Unfolding equation for `dedupeS` on a cons cell. -/
theorem dedupeS_cons (q : GQuote) (rest : List GQuote) (ks : List String) :
    dedupeS (q :: rest) ks =
      if ks.contains (compute_key q.quote q.author) = true then dedupeS rest ks
      else ({ q with dedupe_key := compute_key q.quote q.author } :: (dedupeS rest ks).1,
            (dedupeS rest ks).2) := rfl

/-- The Goodreads `dedupe` loop returns the `existing_keys` set unchanged:
it only reads it. -/
theorem dedupeS_snd (qs : List GQuote) (ks : List String) :
    (dedupeS qs ks).2 = ks := by
  induction qs with
  | nil => rfl
  | cons q rest ih =>
    rw [dedupeS_cons]
    split
    · exact ih
    · exact ih

/-- Characterization of the Goodreads `dedupe` loop: it admits every
candidate whose key is not in the passed set — each occurrence, not only
the first — and stamps the computed key on the admitted record. -/
theorem dedupeS_fst (qs : List GQuote) (ks : List String) :
    (dedupeS qs ks).1 =
      (qs.filter (fun q => !(ks.contains (compute_key q.quote q.author)))).map
        (fun q => { q with dedupe_key := compute_key q.quote q.author }) := by
  induction qs with
  | nil => rfl
  | cons q rest ih =>
    rw [dedupeS_cons]
    by_cases h : ks.contains (compute_key q.quote q.author) = true
    · have hcond : (!(ks.contains (compute_key q.quote q.author))) = false := by
        rw [h]; rfl
      rw [if_pos h, ih, List.filter_cons, hcond]
      simp
    · simp only [Bool.not_eq_true] at h
      have hcond : (!(ks.contains (compute_key q.quote q.author))) = true := by
        rw [h]; rfl
      rw [if_neg (by rw [h]; simp)]
      show { q with dedupe_key := compute_key q.quote q.author } :: (dedupeS rest ks).1 = _
      rw [ih, List.filter_cons, hcond, if_pos rfl, List.map_cons]

/-- Unfolding equation for `zenDedupAux` on a cons cell. -/
theorem zenDedupAux_cons (it : ZItem) (rest : List ZItem) (seen : List String) :
    zenDedupAux (it :: rest) seen =
      if seen.contains (zenItemKey it) = true then zenDedupAux rest seen
      else (it :: (zenDedupAux rest (zenItemKey it :: seen)).1,
            (zenDedupAux rest (zenItemKey it :: seen)).2) := rfl

theorem zenDedupAux_spec :
    ∀ (items : List ZItem) (seen : List String),
      (zenDedupAux items seen).1 =
        firstOccBy zenItemKey
          (items.filter (fun it => !(seen.contains (zenItemKey it)))) ∧
      (zenDedupAux items seen).2 =
        ((zenDedupAux items seen).1.map zenItemKey).reverse ++ seen := by
  intro items
  induction items with
  | nil =>
    intro seen
    constructor
    · show ([] : List ZItem) = firstOccBy zenItemKey (List.filter _ [])
      simp [firstOccBy]
    · rfl
  | cons it rest ih =>
    intro seen
    by_cases h : seen.contains (zenItemKey it) = true
    · have hcond : (!(seen.contains (zenItemKey it))) = false := by rw [h]; rfl
      rw [zenDedupAux_cons, if_pos h, List.filter_cons, hcond]
      simp only [Bool.false_eq_true, if_false]
      exact ih seen
    · simp only [Bool.not_eq_true] at h
      have hcond : (!(seen.contains (zenItemKey it))) = true := by rw [h]; rfl
      obtain ⟨ih1, ih2⟩ := ih (zenItemKey it :: seen)
      have hfil : rest.filter
            (fun x => !((zenItemKey it :: seen).contains (zenItemKey x))) =
          (rest.filter (fun x => !(seen.contains (zenItemKey x)))).filter
            (fun x => zenItemKey x ≠ zenItemKey it) := by
        rw [List.filter_filter]
        apply List.filter_congr
        intro x _
        rw [List.contains_cons]
        by_cases hx : zenItemKey x = zenItemKey it
        · simp [hx]
        · simp [hx]
      have hunf : firstOccBy zenItemKey
            (it :: rest.filter (fun x => !(seen.contains (zenItemKey x)))) =
          it :: firstOccBy zenItemKey
            ((rest.filter (fun x => !(seen.contains (zenItemKey x)))).filter
              (fun x => zenItemKey x ≠ zenItemKey it)) := by
        simp [firstOccBy]
      rw [zenDedupAux_cons, if_neg (by rw [h]; simp)]
      constructor
      · show it :: (zenDedupAux rest (zenItemKey it :: seen)).1 = _
        rw [List.filter_cons, hcond, if_pos rfl, hunf, ← hfil, ih1]
      · show (zenDedupAux rest (zenItemKey it :: seen)).2 =
          ((it :: (zenDedupAux rest (zenItemKey it :: seen)).1).map zenItemKey).reverse ++ seen
        rw [ih2, List.map_cons, List.reverse_cons, List.append_assoc,
          List.singleton_append]

/-- C2 (amended): the ZenQuotes dedup loop is order-preserving and
within-batch-safe — it returns exactly the declarative first occurrence of
each key among the candidates not already in `seen` (so for `[A, B, A']`
with `A, A'` sharing a key it returns `[A, B]`), and its final seen set is
the admitted keys joined to the initial set.  The Goodreads `dedupe`, by
contrast, never inserts into the known-key set during the pass: it admits
every occurrence whose key is absent from the set passed in, so
within-batch duplicates are all admitted. -/
theorem C2_dedup_gate :
    (∀ (items : List ZItem) (seen : List String),
      (zenDedupAux items seen).1 =
        firstOccBy zenItemKey
          (items.filter (fun it => !(seen.contains (zenItemKey it)))) ∧
      (zenDedupAux items seen).2 =
        ((zenDedupAux items seen).1.map zenItemKey).reverse ++ seen) ∧
    (∀ (qs : List GQuote) (ks : List String),
      dedupe qs ks =
        (qs.filter (fun q => !(ks.contains (compute_key q.quote q.author)))).map
          (fun q => { q with dedupe_key := compute_key q.quote q.author })) :=
  ⟨zenDedupAux_spec, fun qs ks => dedupeS_fst qs ks⟩

/-- Counterexample to C2 as stated: for candidates `[A, B, A']` where `A`
and `A'` share an identity (identical quote and author, different tag) and
an empty known set, the Goodreads `dedupe` admits all three — the output
is not `[A, B]`, because the admitted key is not inserted into the known
set within the batch. -/
theorem C2_counterexample :
    (dedupe [⟨"t", "Live well", "X", "u", 9, ""⟩,
             ⟨"t", "Other", "Y", "u", 5, ""⟩,
             ⟨"s", "Live well", "X", "u", 9, ""⟩] []).map
        (fun q => (q.tag, q.quote)) =
      [("t", "Live well"), ("t", "Other"), ("s", "Live well")] ∧
    (dedupe [⟨"t", "Live well", "X", "u", 9, ""⟩,
             ⟨"t", "Other", "Y", "u", 5, ""⟩,
             ⟨"s", "Live well", "X", "u", 9, ""⟩] []).length = 3 ∧
    compute_key "Live well" "X" = compute_key "Live well" "X" := by
  refine ⟨by decide, by decide, rfl⟩

/-- C1 (amended): the Goodreads job is safe to re-run — dedupe against a
known-key set already containing the keys admitted by the first pass
admits zero rows.  (The ZenQuotes and Pinterest jobs are not: they never
consult a persisted known-identity set, see the counterexample.) -/
theorem C1_goodreads_rerun_admits_nothing (qs : List GQuote) (ks : List String) :
    dedupe qs (ks ++ (dedupe qs ks).map (fun q => q.dedupe_key)) = [] := by
  rw [dedupe, dedupeS_fst]
  have hfil : qs.filter (fun q =>
      !((ks ++ (dedupe qs ks).map (fun q => q.dedupe_key)).contains
        (compute_key q.quote q.author))) = [] := by
    rw [List.filter_eq_nil_iff]
    intro q hq
    have hmem : compute_key q.quote q.author ∈
        ks ++ (dedupe qs ks).map (fun q => q.dedupe_key) := by
      rw [List.mem_append]
      by_cases hks : compute_key q.quote q.author ∈ ks
      · exact Or.inl hks
      · right
        rw [dedupe, dedupeS_fst, List.map_map]
        refine List.mem_map.mpr ⟨q, List.mem_filter.mpr ⟨hq, ?_⟩, rfl⟩
        have hcc : ks.contains (compute_key q.quote q.author) = false := by
          cases hcc : ks.contains (compute_key q.quote q.author) with
          | false => rfl
          | true => exact absurd (gr_contains_iff.mp hcc) hks
        rw [hcc]
        rfl
    have hcont := gr_contains_iff.mpr hmem
    rw [hcont]
    simp
  rw [hfil]
  rfl

/-- Counterexample to C1 as stated: the Pinterest job has no dedup gate at
all and the ZenQuotes job starts each run with an empty `seen` set, so a
second run of either against unchanged source data appends the already
admitted row again — one new row instead of the required zero. -/
theorem C1_counterexample :
    (pinterestJob "2025-01-01" []
      [("Motivation-Mondays",
        [⟨"Stay hungry", "https://pin/1", some "2025-01-01", [], none⟩])]).length = 1 ∧
    (pinterestJob "2025-01-02"
      (pinterestJob "2025-01-01" []
        [("Motivation-Mondays",
          [⟨"Stay hungry", "https://pin/1", some "2025-01-01", [], none⟩])])
      [("Motivation-Mondays",
        [⟨"Stay hungry", "https://pin/1", some "2025-01-01", [], none⟩])]).length = 2 ∧
    (zenJob "t1" [] [⟨"Stay hungry.", "SJ", "100", ""⟩]).length = 1 ∧
    (zenJob "t2" (zenJob "t1" [] [⟨"Stay hungry.", "SJ", "100", ""⟩])
      [⟨"Stay hungry.", "SJ", "100", ""⟩]).length = 2 := by
  refine ⟨by decide, by decide, by decide, by decide⟩

/-- C10: the Goodreads `dedupe` leaves the known-key set unchanged (the
loop only reads it), and in the page loop the admitted keys are merged
into the run's `existing_keys` only after the rows were appended — a write
failure leaves the set (and the emitted rows) exactly as before the page. -/
theorem C10_dedupe_frame (qs : List GQuote) (ks : List String) (ts : String) :
    (dedupeS qs ks).2 = ks ∧
    processPage ks qs false ts = (ks, []) ∧
    (processPage ks qs true ts).1 =
      ks ++ (dedupe qs ks).map (fun q => q.dedupe_key) := by
  refine ⟨dedupeS_snd qs ks, ?_, ?_⟩
  · simp only [processPage]
    split
    · rfl
    · simp
  · simp only [processPage]
    by_cases hnew : (dedupe qs ks).isEmpty = true
    · rw [if_pos hnew]
      have hnil : dedupe qs ks = [] := by simpa using hnew
      rw [hnil]
      simp
    · rw [if_neg hnew]
      simp

/-! ### Feed-entry extraction -/

/-- C9 (amended): the Tiny Buddha extractor takes as candidate text the
entity-unescape of the trimmed, tag-stripped content of the first
`<strong>` span of the entry's description/content HTML when that result
is non-empty, and falls back to the entry title when no span is found —
and also when a span is found but the result is the empty (falsy)
string. -/
theorem C9_feed_candidate_text (e : TEntry) :
    (splitFirstCI "<strong>".data (tbRawHtml e).data = none →
      extract_first_strong (tbRawHtml e) = none ∧ candidate_text e = e.title) ∧
    (∀ q : String, extract_first_strong (tbRawHtml e) = some q → q ≠ "" →
      candidate_text e = q) := by
  constructor
  · intro h
    have hext : extract_first_strong (tbRawHtml e) = none := by
      rw [extract_first_strong, h]
    exact ⟨hext, by rw [candidate_text, hext]⟩
  · intro q hq hne
    have hbeq : (q == "") = false := beq_eq_false_iff_ne.mpr hne
    rw [candidate_text, hq]
    simp [hbeq]

/-- Witness for C9 (amended): an entry with no strongly-emphasized span and
title `"5 Ways to Save More"` yields the title as candidate text (spec
scenario 3); an entry with `<strong>Be kind</strong>` yields the span
content. -/
theorem C9_feed_candidate_text_witness :
    (extract_first_strong
        (tbRawHtml ⟨"<p>no span here</p>", "", "5 Ways to Save More", "A", "", "L"⟩) = none ∧
      candidate_text ⟨"<p>no span here</p>", "", "5 Ways to Save More", "A", "", "L"⟩ =
        "5 Ways to Save More") ∧
    candidate_text ⟨"<p><strong>Be kind</strong></p>", "", "T", "A", "", "L"⟩ = "Be kind" :=
  ⟨(C9_feed_candidate_text ⟨"<p>no span here</p>", "", "5 Ways to Save More", "A", "", "L"⟩).1
      (by decide),
   (C9_feed_candidate_text ⟨"<p><strong>Be kind</strong></p>", "", "T", "A", "", "L"⟩).2
      "Be kind" (by decide) (by decide)⟩

/-- Counterexample to C9 as stated: for an entry whose HTML contains the
span `<strong></strong>` the extractor finds a span and returns its (empty)
content, yet the candidate text is the entry title — the fallback is not
restricted to "no such span is found". -/
theorem C9_counterexample :
    extract_first_strong
        (tbRawHtml ⟨"<p><strong></strong>win</p>", "", "T", "A", "", "L"⟩) = some "" ∧
    candidate_text ⟨"<p><strong></strong>win</p>", "", "T", "A", "", "L"⟩ = "T" ∧
    ("T" : String) ≠ "" := by
  refine ⟨by decide, by decide, by decide⟩

/-- Counterexample to C7 as stated over its Goodreads source: the quote
cleanup of `parse_quotes` strips only curly double quotes, straight
quotes and spaces, so a quote wrapped in curly single quotes is admitted
(its cleaned length is within bounds) with a quotation glyph at both its
first and its last position. -/
theorem C7_counterexample :
    (parse_quote_div
        "‘Whatever you are, be a good one, and keep being that every single day.’ ― A. Lincoln"
        "confidence").map
      (fun g => (headNot isGlyph g.quote.data, lastNot isGlyph g.quote.data)) =
      some (false, false) := by
  decide
